import Mathlib

/-!
Verification of the OnlineGS group-collaboration backend.

The definitions below are a shallow embedding of the backend route handlers
and the Socket.io event handlers:

* routes/groups.js   — group creation, join, leave
* routes/chat.js     — message history, post message, delete message
* routes/notes.js    — shared note save and history
* routes/tasks.js    — task update, delete, completion toggle
* socket/socketHandler.js — real-time room events and the in-memory roster

JavaScript strings are modelled as Lean strings; the JavaScript string
primitives used by the code (trim, toUpperCase, lexicographic comparison as
used by the document store's orderBy and range filters) are given explicit
executable definitions over the underlying character list so that every
handler is computable by the kernel.  Firestore documents are modelled as
Lean structures, collections as lists of documents, and each Express or
Socket.io handler as a pure function from its inputs and the relevant store
state to an HTTP status (or emitted events) and the successor state.
-/

namespace OnlineGS

/-- Characters removed by a trim call, as in JavaScript String.prototype.trim. -/
def trimL (s : List Char) : List Char :=
  ((s.dropWhile Char.isWhitespace).reverse.dropWhile Char.isWhitespace).reverse

/-- Model of JavaScript text.trim() used by the validators and handlers. -/
def jsTrim (s : String) : String := ⟨trimL s.data⟩

/-- Model of JavaScript s.toUpperCase() on the ASCII invite-code alphabet. -/
def jsToUpper (s : String) : String := ⟨s.data.map Char.toUpper⟩

/-- Strict lexicographic order on character lists, by code point; this is the
order the document store applies to string fields in range filters. -/
def strLtL : List Char → List Char → Bool
  | [], [] => false
  | [], _ :: _ => true
  | _ :: _, [] => false
  | a :: as, b :: bs => a.toNat < b.toNat || (a.toNat == b.toNat && strLtL as bs)

/-- Reflexive lexicographic order on character lists, by code point. -/
def strLeL : List Char → List Char → Bool
  | [], _ => true
  | _ :: _, [] => false
  | a :: as, b :: bs => a.toNat < b.toNat || (a.toNat == b.toNat && strLeL as bs)

/-- Strict string comparison, as used for the before-timestamp cursor. -/
def strLt (a b : String) : Bool := strLtL a.data b.data

/-- Reflexive string comparison, as used by orderBy on a timestamp field. -/
def strLe (a b : String) : Bool := strLeL a.data b.data

theorem strLeL_total : ∀ a b, strLeL a b = true ∨ strLeL b a = true := by
  intro a
  induction a with
  | nil => intro b; left; simp [strLeL]
  | cons x xs ih =>
    intro b
    cases b with
    | nil => right; simp [strLeL]
    | cons y ys =>
      simp only [strLeL, Bool.or_eq_true, Bool.and_eq_true, beq_iff_eq,
        decide_eq_true_eq]
      rcases Nat.lt_trichotomy x.toNat y.toNat with h | h | h
      · left; left; exact h
      · rcases ih ys with h2 | h2
        · left; right; exact ⟨h, h2⟩
        · right; right; exact ⟨h.symm, h2⟩
      · right; left; exact h

theorem strLeL_trans :
    ∀ a b c, strLeL a b = true → strLeL b c = true → strLeL a c = true := by
  intro a
  induction a with
  | nil => intro b c _ _; simp [strLeL]
  | cons x xs ih =>
    intro b c hab hbc
    cases b with
    | nil => simp [strLeL] at hab
    | cons y ys =>
      cases c with
      | nil => simp [strLeL] at hbc
      | cons z zs =>
        simp only [strLeL, Bool.or_eq_true, Bool.and_eq_true, beq_iff_eq,
          decide_eq_true_eq] at *
        rcases hab with h1 | ⟨h1, h1'⟩ <;> rcases hbc with h2 | ⟨h2, h2'⟩
        · exact Or.inl (Nat.lt_trans h1 h2)
        · exact Or.inl (h2 ▸ h1)
        · exact Or.inl (h1 ▸ h2)
        · exact Or.inr ⟨h1.trans h2, ih ys zs h1' h2'⟩

theorem strLe_total (a b : String) : strLe a b = true ∨ strLe b a = true :=
  strLeL_total a.data b.data

theorem strLe_trans {a b c : String}
    (hab : strLe a b = true) (hbc : strLe b c = true) : strLe a c = true :=
  strLeL_trans a.data b.data c.data hab hbc

/-- Identity carried by a verified JWT: req.user / socket.user. -/
structure AuthUser where
  userId : String
  email : String
  displayName : String
deriving DecidableEq, Repr

/-- One entry of a group's members array. -/
structure Member where
  userId : String
  email : String
  displayName : String
  role : String
  joinedAt : String
deriving DecidableEq, Repr

/-- A document of the groups collection. -/
structure Group where
  groupId : String
  name : String
  description : String
  inviteCode : String
  createdBy : String
  members : List Member
  createdAt : String
  updatedAt : String
deriving DecidableEq, Repr

/-- The group-related part of a users-collection document. -/
structure UserDoc where
  userId : String
  groups : List String
  updatedAt : String
deriving DecidableEq, Repr

/-- A document of the messages collection. -/
structure Message where
  messageId : String
  groupId : String
  senderId : String
  senderEmail : String
  senderName : String
  text : String
  createdAt : String
  updatedAt : String
deriving DecidableEq, Repr

/-- Denormalized user snapshot { userId, displayName } stored on tasks/notes. -/
structure UserRef where
  userId : String
  displayName : String
deriving DecidableEq, Repr

/-- A document of the tasks collection. -/
structure Task where
  taskId : String
  groupId : String
  title : String
  description : String
  assignee : Option UserRef
  dueDate : Option String
  completed : Bool
  completedAt : Option String
  completedBy : Option UserRef
  createdBy : UserRef
  createdAt : String
  updatedAt : String
deriving DecidableEq, Repr

/-- The notes-collection document for a group (keyed by groupId). -/
structure NoteDoc where
  groupId : String
  content : String
  lastEditedBy : Option UserRef
  lastEditedAt : Option String
  updatedAt : String
deriving DecidableEq, Repr

/-- One archived entry of a note's noteHistory sub-collection. -/
structure HistEntry where
  content : String
  savedBy : Option UserRef
  savedAt : Option String
  archivedAt : String
deriving DecidableEq, Repr

/-- Membership test used by every route: group.members.some(m.userId === userId). -/
def isMember (g : Group) (uid : String) : Bool :=
  g.members.any (fun m => m.userId == uid)

/-- Semantics of FieldValue.arrayUnion: append the element unless present. -/
def arrayUnion {α : Type} [DecidableEq α] (xs : List α) (x : α) : List α :=
  if x ∈ xs then xs else xs ++ [x]

/-- Semantics of FieldValue.arrayRemove: drop every occurrence of the element. -/
def arrayRemove {α : Type} [DecidableEq α] (xs : List α) (x : α) : List α :=
  xs.filter (fun y => y ≠ x)

/-- The shared requireGroupMembership helper: some status on failure
(404 when the group document is absent, 403 for a non-member), none on success. -/
def membershipCheck (g? : Option Group) (uid : String) : Option Nat :=
  match g? with
  | none => some 404
  | some g => if isMember g uid then none else some 403

/-- Character alphabet of a UUIDv4 string: lowercase hex digits and dashes. -/
def uuidAlphabet : List Char :=
  ['-', 'a', 'b', 'c', 'd', 'e', 'f',
   '0', '1', '2', '3', '4', '5', '6', '7', '8', '9']

/-- Uppercase hexadecimal digits. -/
def upperHexDigits : List Char :=
  ['A', 'B', 'C', 'D', 'E', 'F',
   '0', '1', '2', '3', '4', '5', '6', '7', '8', '9']

/-- Invite-code generation from group creation: strip the dashes from a
uuidv4 string, take the first 8 characters, uppercase them; acting on the
uuid string's character list. -/
def genInviteCode (uuid : List Char) : List Char :=
  ((uuid.filter (fun c => c != '-')).take 8).map Char.toUpper

theorem toUpper_uuidAlphabet {c : Char} (h : c ∈ uuidAlphabet) (hne : c ≠ '-') :
    Char.toUpper c ∈ upperHexDigits := by
  fin_cases h <;> first | decide | exact absurd rfl hne

/-- Membership and promotion bookkeeping on a members array. -/
def hasAdmin (ms : List Member) : Bool :=
  ms.any (fun m => m.role == "admin")

/-- Number of members holding the admin role. -/
def countAdmins (ms : List Member) : Nat :=
  ms.countP (fun m => m.role == "admin")

/-- Result of the leave handler: response status, the state of the group
document afterwards (none = deleted or absent), and the caller's user doc. -/
structure LeaveResult where
  status : Nat
  group : Option Group
  user : UserDoc
deriving DecidableEq, Repr

/-- POST /api/groups/:groupId/leave.  g? is the document fetched at the path's
groupId.  A non-member caller gets 400; the last member leaving deletes the
group; otherwise, when the leaver was an admin and no other admin remains,
the first remaining member (in list order) is promoted to admin; finally the
group id is removed from the caller's user document. -/
def leaveGroup (gid : String) (g? : Option Group) (uid : String)
    (user : UserDoc) (now : String) : LeaveResult :=
  match g? with
  | none => ⟨404, none, user⟩
  | some g =>
    match g.members.find? (fun m => m.userId == uid) with
    | none => ⟨400, some g, user⟩
    | some me =>
      let remaining := g.members.filter (fun m => m.userId != uid)
      let user' : UserDoc :=
        { user with groups := arrayRemove user.groups gid, updatedAt := now }
      if remaining.isEmpty then
        ⟨200, none, user'⟩
      else
        let hasOtherAdmin := remaining.any (fun m => m.role == "admin")
        let remaining' :=
          if me.role == "admin" && !hasOtherAdmin then
            match remaining with
            | [] => []
            | r0 :: rs => { r0 with role := "admin" } :: rs
          else remaining
        ⟨200, some { g with members := remaining', updatedAt := now }, user'⟩

/-- C10: every invite code produced by group creation is exactly 8 characters
long, every character is an uppercase hexadecimal digit (0-9 or A-F), and no
character lies in the letter range G..Z, because the code is the first 8
characters of a dash-stripped UUIDv4, uppercased. -/
theorem inviteCode_length_and_alphabet (uuid : List Char)
    (halpha : ∀ c ∈ uuid, c ∈ uuidAlphabet)
    (hlen : 8 ≤ (uuid.filter (fun c => c != '-')).length) :
    (genInviteCode uuid).length = 8 ∧
    (∀ c ∈ genInviteCode uuid, c ∈ upperHexDigits) ∧
    (∀ c ∈ genInviteCode uuid, ¬('G'.toNat ≤ c.toNat ∧ c.toNat ≤ 'Z'.toNat)) := by
  have hmem : ∀ c ∈ genInviteCode uuid, c ∈ upperHexDigits := by
    intro c hc
    simp only [genInviteCode, List.mem_map] at hc
    obtain ⟨d, hd, rfl⟩ := hc
    have hd' := List.mem_filter.mp (List.mem_of_mem_take hd)
    exact toUpper_uuidAlphabet (halpha d hd'.1) (by simpa using hd'.2)
  refine ⟨?_, hmem, ?_⟩
  · have ht : ((uuid.filter (fun c => c != '-')).take 8).length = 8 := by
      rw [List.length_take]
      exact Nat.min_eq_left hlen
    simp only [genInviteCode, List.length_map]
    exact ht
  · intro c hc
    have := hmem c hc
    fin_cases this <;> decide

theorem inviteCode_length_and_alphabet_witness :
    (genInviteCode ("a3f9b2c1-7d4e-4a2b-9c8d-123456789abc" : String).data).length = 8 ∧
    (∀ c ∈ genInviteCode ("a3f9b2c1-7d4e-4a2b-9c8d-123456789abc" : String).data,
      c ∈ upperHexDigits) ∧
    (∀ c ∈ genInviteCode ("a3f9b2c1-7d4e-4a2b-9c8d-123456789abc" : String).data,
      ¬('G'.toNat ≤ c.toNat ∧ c.toNat ≤ 'Z'.toNat)) :=
  inviteCode_length_and_alphabet _ (by decide) (by decide)

/-- C3: a successful leave by the last member deletes the group document; a
successful leave by the sole admin with members remaining promotes the first
remaining member (in list order) to admin so that exactly one admin remains;
and any leave that keeps the group existing keeps at least one admin,
provided the member list held an admin and member user ids are unique. -/
theorem leave_admin_safety (gid : String) (g : Group) (uid : String)
    (user : UserDoc) (now : String) (me : Member)
    (hfind : g.members.find? (fun m => m.userId == uid) = some me)
    (hnodup : (g.members.map Member.userId).Nodup) :
    (g.members.filter (fun m => m.userId != uid) = [] →
      leaveGroup gid (some g) uid user now =
        ⟨200, none,
          { user with groups := arrayRemove user.groups gid, updatedAt := now }⟩) ∧
    (∀ r0 rs, g.members.filter (fun m => m.userId != uid) = r0 :: rs →
      me.role = "admin" → hasAdmin (r0 :: rs) = false →
      leaveGroup gid (some g) uid user now =
        ⟨200,
          some { g with
                 members := ({ r0 with role := "admin" } :: rs),
                 updatedAt := now },
          { user with groups := arrayRemove user.groups gid, updatedAt := now }⟩ ∧
      countAdmins ({ r0 with role := "admin" } :: rs) = 1) ∧
    (hasAdmin g.members = true →
      ∀ g', (leaveGroup gid (some g) uid user now).group = some g' →
        hasAdmin g'.members = true) := by
  refine ⟨?_, ?_, ?_⟩
  · intro hrem
    simp [leaveGroup, hfind, hrem]
  · intro r0 rs hrem hadm hno
    have hno' : ((r0 :: rs).any fun m => m.role == "admin") = false := hno
    constructor
    · simp [leaveGroup, hfind, hrem, hno', hadm]
    · have htail : List.countP (fun m => m.role == "admin") rs = 0 := by
        rw [List.countP_eq_zero]
        intro m hm
        exact (List.any_eq_false.mp hno') m (List.mem_cons_of_mem _ hm)
      simp [countAdmins, List.countP_cons, htail]
  · intro hadm g' hg'
    have hme : me ∈ g.members := List.mem_of_find?_eq_some hfind
    have hmeid : me.userId = uid := by
      have := List.find?_some hfind
      simpa using this
    rcases hrem : g.members.filter (fun m => m.userId != uid) with _ | ⟨r0, rs⟩
    · simp [leaveGroup, hfind, hrem] at hg'
    · by_cases hc : (me.role == "admin" && !((r0 :: rs).any fun m => m.role == "admin")) = true
      · simp only [leaveGroup, hfind, hrem, List.isEmpty_cons, hc] at hg'
        simp only [if_true, Bool.false_eq_true, ite_false] at hg'
        cases hg'
        simp [hasAdmin]
      · simp only [leaveGroup, hfind, hrem, List.isEmpty_cons] at hg'
        rw [Bool.not_eq_true] at hc
        simp only [hc, Bool.false_eq_true, ite_false, Option.some.injEq] at hg'
        rcases Bool.and_eq_false_iff.mp hc with hc1 | hc2
        · obtain ⟨x, hx, hxadm⟩ := List.any_eq_true.mp hadm
          have hxuid : x.userId ≠ uid := by
            intro hxeq
            have hxme : x = me :=
              List.inj_on_of_nodup_map hnodup hx hme (hxeq.trans hmeid.symm)
            rw [hxme] at hxadm
            simp at hxadm hc1
            exact hc1 hxadm
          have hxrem : x ∈ g.members.filter (fun m => m.userId != uid) := by
            rw [List.mem_filter]
            exact ⟨hx, by simpa using hxuid⟩
          rw [hrem] at hxrem
          rw [← hg']
          exact List.any_eq_true.mpr ⟨x, hxrem, hxadm⟩
        · have hany : ((r0 :: rs).any fun m => m.role == "admin") = true := by
            revert hc2
            cases ((r0 :: rs).any fun m => m.role == "admin") <;> simp
          rw [← hg']
          exact hany

/-- Admin member of the concrete leave scenario. -/
def wgAlice : Member := ⟨"alice", "a@x.io", "Alice", "admin", "t0"⟩

/-- Ordinary member of the concrete leave scenario. -/
def wgBob : Member := ⟨"bob", "b@x.io", "Bob", "member", "t1"⟩

/-- Concrete two-member group whose sole admin leaves. -/
def wgGroup : Group :=
  ⟨"g1", "Midterm Prep", "", "A3F9B2C1", "alice", [wgAlice, wgBob], "t0", "t1"⟩

/-- User document of the leaving admin. -/
def wgUser : UserDoc := ⟨"alice", ["g1"], "t1"⟩

theorem leave_admin_safety_witness :
    leaveGroup "g1" (some wgGroup) "alice" wgUser "t2" =
      ⟨200,
        some { wgGroup with
               members := ({ wgBob with role := "admin" } :: []),
               updatedAt := "t2" },
        { wgUser with
          groups := arrayRemove wgUser.groups "g1",
          updatedAt := "t2" }⟩ ∧
    countAdmins ({ wgBob with role := "admin" } :: []) = 1 :=
  (leave_admin_safety "g1" wgGroup "alice" wgUser "t2" wgAlice (by decide)
    (by decide)).2.1 wgBob [] (by decide) (by decide) (by decide)

/-- Result of the join handler: response status, the state of the group
document afterwards, and the caller's user document. -/
structure JoinResult where
  status : Nat
  group : Option Group
  user : UserDoc
deriving DecidableEq, Repr

/-- POST /api/groups/:groupId/join with body { inviteCode }.  The validator
trims the supplied code and rejects an empty one (400); the handler then
requires the group document at the path's groupId to exist (404), compares
invite codes case-insensitively (mismatch 400), rejects a caller who is
already a member (409), and otherwise appends a member entry with role
member via arrayUnion and records the group id on the caller's user
document. -/
def joinGroup (gid : String) (g? : Option Group) (u : AuthUser)
    (user : UserDoc) (inviteCode now : String) : JoinResult :=
  if jsTrim inviteCode == "" then ⟨400, g?, user⟩
  else
    match g? with
    | none => ⟨404, none, user⟩
    | some g =>
      if jsToUpper g.inviteCode != jsToUpper (jsTrim inviteCode) then
        ⟨400, some g, user⟩
      else if isMember g u.userId then ⟨409, some g, user⟩
      else
        ⟨200,
          some { g with
                 members := arrayUnion g.members
                   ⟨u.userId, u.email, u.displayName, "member", now⟩,
                 updatedAt := now },
          { user with groups := arrayUnion user.groups gid, updatedAt := now }⟩

theorem arrayUnion_of_not_member (g : Group) (u : AuthUser) (now : String)
    (hnm : isMember g u.userId = false) :
    arrayUnion g.members ⟨u.userId, u.email, u.displayName, "member", now⟩ =
      g.members ++ [⟨u.userId, u.email, u.displayName, "member", now⟩] := by
  rw [arrayUnion, if_neg]
  intro hmem
  have := List.any_eq_false.mp (by rw [isMember] at hnm; exact hnm) _ hmem
  simp at this

/-- C4: a join succeeds exactly when the trimmed invite code matches the
group's code case-insensitively and the caller is not yet a member; an
already-member caller with a valid code gets 409 with the group unchanged; a
successful join appends a role-member entry and records the group id on the
user document; and after a successful join the user has exactly one member
entry and a second join with the same code yields 409, never a second
entry. -/
theorem join_code_and_conflict (gid : String) (g : Group) (u : AuthUser)
    (user : UserDoc) (code now : String) (hcode : jsTrim code ≠ "") :
    ((joinGroup gid (some g) u user code now).status = 200 ↔
      (jsToUpper g.inviteCode = jsToUpper (jsTrim code) ∧
        isMember g u.userId = false)) ∧
    (jsToUpper g.inviteCode = jsToUpper (jsTrim code) →
      isMember g u.userId = true →
      joinGroup gid (some g) u user code now = ⟨409, some g, user⟩) ∧
    (jsToUpper g.inviteCode = jsToUpper (jsTrim code) →
      isMember g u.userId = false →
      joinGroup gid (some g) u user code now =
        ⟨200,
          some { g with
                 members := g.members ++
                   [⟨u.userId, u.email, u.displayName, "member", now⟩],
                 updatedAt := now },
          { user with
            groups := arrayUnion user.groups gid,
            updatedAt := now }⟩) ∧
    (jsToUpper g.inviteCode = jsToUpper (jsTrim code) →
      isMember g u.userId = false →
      ∀ g2, (joinGroup gid (some g) u user code now).group = some g2 →
        g2.members.countP (fun m => m.userId == u.userId) = 1 ∧
        ∀ user2 now2,
          joinGroup gid (some g2) u user2 code now2 = ⟨409, some g2, user2⟩) := by
  have hne : (jsTrim code == "") = false := by simpa using hcode
  have hsucc : ∀ hm : jsToUpper g.inviteCode = jsToUpper (jsTrim code),
      ∀ hmem : isMember g u.userId = false,
      joinGroup gid (some g) u user code now =
        ⟨200,
          some { g with
                 members := g.members ++
                   [⟨u.userId, u.email, u.displayName, "member", now⟩],
                 updatedAt := now },
          { user with
            groups := arrayUnion user.groups gid,
            updatedAt := now }⟩ := by
    intro hm hmem
    rw [joinGroup]
    simp only [hne, Bool.false_eq_true, if_false, hm, bne_self_eq_false,
      hmem, arrayUnion_of_not_member g u now hmem]
  refine ⟨?_, ?_, hsucc, ?_⟩
  · constructor
    · intro hs
      by_cases hm : jsToUpper g.inviteCode = jsToUpper (jsTrim code)
      · by_cases hmem : isMember g u.userId = true
        · rw [joinGroup] at hs
          simp [hne, hm, hmem] at hs
        · exact ⟨hm, Bool.not_eq_true _ ▸ hmem⟩
      · rw [joinGroup] at hs
        have hbne : (jsToUpper g.inviteCode != jsToUpper (jsTrim code)) = true := by
          simpa using hm
        simp [hne, hbne] at hs
    · intro ⟨hm, hmem⟩
      rw [hsucc hm hmem]
  · intro hm hmem
    rw [joinGroup]
    simp only [hne, Bool.false_eq_true, if_false, hm, bne_self_eq_false, hmem,
      if_true]
  · intro hm hmem g2 hg2
    rw [hsucc hm hmem] at hg2
    simp only [Option.some.injEq] at hg2
    have hcount : g.members.countP (fun m => m.userId == u.userId) = 0 := by
      rw [List.countP_eq_zero]
      intro m hmm
      exact List.any_eq_false.mp (by rw [isMember] at hmem; exact hmem) m hmm
    constructor
    · rw [← hg2]
      simp [List.countP_append, hcount]
    · intro user2 now2
      have hmem2 : isMember g2 u.userId = true := by
        rw [← hg2]
        simp [isMember, List.any_append]
      have hcode2 : jsToUpper g2.inviteCode = jsToUpper (jsTrim code) := by
        rw [← hg2]
        exact hm
      rw [joinGroup]
      simp only [hne, Bool.false_eq_true, if_false, hcode2, bne_self_eq_false,
        hmem2, if_true]

/-- Concrete group for the join scenario: stored invite code is uppercase. -/
def wjGroup : Group :=
  ⟨"g1", "Midterm Prep", "", "A3F9B2C1", "alice",
    [⟨"alice", "a@x.io", "Alice", "admin", "t0"⟩], "t0", "t0"⟩

/-- Concrete joining user (submits the invite code in lowercase). -/
def wjBob : AuthUser := ⟨"bob", "b@x.io", "Bob"⟩

/-- User document of the joining user. -/
def wjBobDoc : UserDoc := ⟨"bob", [], "t0"⟩

theorem join_code_and_conflict_witness :
    joinGroup "g1" (some wjGroup) wjBob wjBobDoc "a3f9b2c1" "t1" =
      ⟨200,
        some { wjGroup with
               members := wjGroup.members ++
                 [⟨"bob", "b@x.io", "Bob", "member", "t1"⟩],
               updatedAt := "t1" },
        { wjBobDoc with
          groups := arrayUnion wjBobDoc.groups "g1",
          updatedAt := "t1" }⟩ :=
  (join_code_and_conflict "g1" wjGroup wjBob wjBobDoc "a3f9b2c1" "t1"
    (by decide)).2.2.1 (by decide) (by decide)

/-- Entry of the in-memory presence map: { userId, displayName, socketId }. -/
structure OnlineUser where
  userId : String
  displayName : String
  socketId : String
deriving DecidableEq, Repr

/-- Events the server emits over Socket.io, with their payloads.  userLeft
carries options because the disconnect and leave handlers read
socket.user?.userId, which is undefined on an unauthenticated socket. -/
inductive Evt where
  | error (message : String)
  | newMessage (m : Message)
  | messageDeleted (messageId groupId : String)
  | userJoined (userId displayName : String)
  | userLeft (userId? : Option String) (displayName? : Option String)
  | onlineUsers (groupId : String) (users : List OnlineUser)
  | typing (userId displayName groupId : String)
  | stopTyping (userId groupId : String)
  | noteUpdated (groupId : String) (lastEditedBy : UserRef) (lastEditedAt : String)
deriving DecidableEq, Repr

/-- DELETE /api/chat/:groupId/messages/:messageId.  Requires membership, then
404 when the id does not resolve, 403 when the caller is not the sender, 400
when the message's stored group id differs from the path's group id, and only
then deletes and emits message_deleted to the group's room. -/
def deleteMessage (g? : Option Group) (uid gid mid : String)
    (store : List Message) : Nat × List Message × List (String × Evt) :=
  match membershipCheck g? uid with
  | some s => (s, store, [])
  | none =>
    match store.find? (fun x => x.messageId == mid) with
    | none => (404, store, [])
    | some m =>
      if m.senderId != uid then (403, store, [])
      else if m.groupId != gid then (400, store, [])
      else (200, store.filter (fun x => x.messageId != mid),
        [(gid, Evt.messageDeleted mid gid)])

/-- Optional fields of a PUT /api/tasks/:groupId/:taskId body; an outer none
means the field was not sent.  The assignee and dueDate fields are themselves
nullable. -/
structure TaskUpdates where
  title : Option String
  description : Option String
  assignee : Option (Option UserRef)
  dueDate : Option (Option String)
deriving DecidableEq, Repr

/-- The partial update object built by the task update handler: updatedAt is
always stamped, and only the fields present in the body are overwritten
(title and description are trimmed). -/
def applyTaskUpdates (t : Task) (upd : TaskUpdates) (now : String) : Task :=
  { t with
    updatedAt := now,
    title := match upd.title with | some s => jsTrim s | none => t.title,
    description :=
      match upd.description with | some s => jsTrim s | none => t.description,
    assignee := upd.assignee.getD t.assignee,
    dueDate := upd.dueDate.getD t.dueDate }

/-- PUT /api/tasks/:groupId/:taskId.  valid is the outcome of the
express-validator checks on the body (title/description lengths, ISO due
date); the handler then requires membership, resolves the task id (404),
rejects a stored group id differing from the path (400), and otherwise
applies the partial update. -/
def updateTask (g? : Option Group) (uid gid tid : String) (valid : Bool)
    (upd : TaskUpdates) (now : String) (store : List Task) :
    Nat × List Task :=
  if !valid then (400, store)
  else
    match membershipCheck g? uid with
    | some s => (s, store)
    | none =>
      match store.find? (fun x => x.taskId == tid) with
      | none => (404, store)
      | some t =>
        if t.groupId != gid then (400, store)
        else (200, store.map (fun x =>
          if x.taskId == tid then applyTaskUpdates x upd now else x))

/-- DELETE /api/tasks/:groupId/:taskId.  Requires membership, resolves the
task id (404), rejects a stored group id differing from the path (400), and
otherwise deletes the document. -/
def deleteTask (g? : Option Group) (uid gid tid : String)
    (store : List Task) : Nat × List Task :=
  match membershipCheck g? uid with
  | some s => (s, store)
  | none =>
    match store.find? (fun x => x.taskId == tid) with
    | none => (404, store)
    | some t =>
      if t.groupId != gid then (400, store)
      else (200, store.filter (fun x => x.taskId != tid))

/-- PATCH /api/tasks/:groupId/:taskId/complete with body { completed }.  The
body is a typed boolean here, so the isBoolean validator always passes.
Requires membership, resolves the task id (404), rejects a stored group id
differing from the path (400), and otherwise writes completed, completedAt,
completedBy and updatedAt in a single update. -/
def completeTask (g? : Option Group) (u : AuthUser) (gid tid : String)
    (completed : Bool) (now : String) (store : List Task) :
    Nat × List Task :=
  match membershipCheck g? u.userId with
  | some s => (s, store)
  | none =>
    match store.find? (fun x => x.taskId == tid) with
    | none => (404, store)
    | some t =>
      if t.groupId != gid then (400, store)
      else
        (200, store.map (fun x =>
          if x.taskId == tid then
            { x with
              completed := completed,
              completedAt := if completed then some now else none,
              completedBy :=
                if completed then some ⟨u.userId, u.displayName⟩ else none,
              updatedAt := now }
          else x))

theorem deleteMessage_cross_group (g? : Option Group) (uid gid mid : String)
    (msgs : List Message) (m : Message)
    (hm : msgs.find? (fun x => x.messageId == mid) = some m)
    (hmg : m.groupId ≠ gid) :
    ∃ s, 400 ≤ s ∧ s < 500 ∧
      deleteMessage g? uid gid mid msgs = (s, msgs, []) := by
  rcases g? with _ | g
  · exact ⟨404, by omega, by omega, rfl⟩
  · by_cases hmem : isMember g uid = true
    · have hmc : membershipCheck (some g) uid = none := by
        simp [membershipCheck, hmem]
      by_cases hs : m.senderId = uid
      · refine ⟨400, by omega, by omega, ?_⟩
        have hsb : (m.senderId != uid) = false := by simp [bne, hs]
        have hgb : (m.groupId != gid) = true := by simpa using hmg
        simp only [deleteMessage, hmc, hm, hsb, hgb, Bool.false_eq_true,
          if_false, if_true]
      · refine ⟨403, by omega, by omega, ?_⟩
        have hsb : (m.senderId != uid) = true := by simpa using hs
        simp only [deleteMessage, hmc, hm, hsb, if_true]
    · have hmemf : isMember g uid = false := by simpa using hmem
      have hmc : membershipCheck (some g) uid = some 403 := by
        simp [membershipCheck, hmemf]
      exact ⟨403, by omega, by omega, by simp only [deleteMessage, hmc]⟩

theorem updateTask_cross_group (g? : Option Group) (uid gid tid : String)
    (valid : Bool) (upd : TaskUpdates) (now : String)
    (tasks : List Task) (t : Task)
    (ht : tasks.find? (fun x => x.taskId == tid) = some t)
    (htg : t.groupId ≠ gid) :
    ∃ s, 400 ≤ s ∧ s < 500 ∧
      updateTask g? uid gid tid valid upd now tasks = (s, tasks) := by
  cases valid with
  | false => exact ⟨400, by omega, by omega, rfl⟩
  | true =>
    rcases g? with _ | g
    · exact ⟨404, by omega, by omega, rfl⟩
    · by_cases hmem : isMember g uid = true
      · have hmc : membershipCheck (some g) uid = none := by
          simp [membershipCheck, hmem]
        refine ⟨400, by omega, by omega, ?_⟩
        have hgb : (t.groupId != gid) = true := by simpa using htg
        simp only [updateTask, Bool.not_true, Bool.false_eq_true, if_false,
          hmc, ht, hgb, if_true]
      · have hmemf : isMember g uid = false := by simpa using hmem
        have hmc : membershipCheck (some g) uid = some 403 := by
          simp [membershipCheck, hmemf]
        exact ⟨403, by omega, by omega, by
          simp only [updateTask, Bool.not_true, Bool.false_eq_true, if_false,
            hmc]⟩

theorem deleteTask_cross_group (g? : Option Group) (uid gid tid : String)
    (tasks : List Task) (t : Task)
    (ht : tasks.find? (fun x => x.taskId == tid) = some t)
    (htg : t.groupId ≠ gid) :
    ∃ s, 400 ≤ s ∧ s < 500 ∧ deleteTask g? uid gid tid tasks = (s, tasks) := by
  rcases g? with _ | g
  · exact ⟨404, by omega, by omega, rfl⟩
  · by_cases hmem : isMember g uid = true
    · have hmc : membershipCheck (some g) uid = none := by
        simp [membershipCheck, hmem]
      refine ⟨400, by omega, by omega, ?_⟩
      have hgb : (t.groupId != gid) = true := by simpa using htg
      simp only [deleteTask, hmc, ht, hgb, if_true]
    · have hmemf : isMember g uid = false := by simpa using hmem
      have hmc : membershipCheck (some g) uid = some 403 := by
        simp [membershipCheck, hmemf]
      exact ⟨403, by omega, by omega, by simp only [deleteTask, hmc]⟩

theorem completeTask_cross_group (g? : Option Group) (u : AuthUser)
    (gid tid : String) (completed : Bool) (now : String)
    (tasks : List Task) (t : Task)
    (ht : tasks.find? (fun x => x.taskId == tid) = some t)
    (htg : t.groupId ≠ gid) :
    ∃ s, 400 ≤ s ∧ s < 500 ∧
      completeTask g? u gid tid completed now tasks = (s, tasks) := by
  rcases g? with _ | g
  · exact ⟨404, by omega, by omega, rfl⟩
  · by_cases hmem : isMember g u.userId = true
    · have hmc : membershipCheck (some g) u.userId = none := by
        simp [membershipCheck, hmem]
      refine ⟨400, by omega, by omega, ?_⟩
      have hgb : (t.groupId != gid) = true := by simpa using htg
      simp only [completeTask, hmc, ht, hgb, if_true]
    · have hmemf : isMember g u.userId = false := by simpa using hmem
      have hmc : membershipCheck (some g) u.userId = some 403 := by
        simp [membershipCheck, hmemf]
      exact ⟨403, by omega, by omega, by simp only [completeTask, hmc]⟩

/-- C5: deleting a message, or updating, deleting or completion-toggling a
task, by an id that resolves to a document whose stored group id differs
from the group id in the request path, is always rejected with a client
error (a 4xx status), leaves the store unchanged, and emits nothing. -/
theorem cross_group_guard (g? : Option Group) (uid gid mid tid : String)
    (u : AuthUser) (valid : Bool) (upd : TaskUpdates) (completed : Bool)
    (now : String) (msgs : List Message) (tasks : List Task)
    (m : Message) (t : Task)
    (hm : msgs.find? (fun x => x.messageId == mid) = some m)
    (hmg : m.groupId ≠ gid)
    (ht : tasks.find? (fun x => x.taskId == tid) = some t)
    (htg : t.groupId ≠ gid) :
    (∃ s, 400 ≤ s ∧ s < 500 ∧
      deleteMessage g? uid gid mid msgs = (s, msgs, [])) ∧
    (∃ s, 400 ≤ s ∧ s < 500 ∧
      updateTask g? uid gid tid valid upd now tasks = (s, tasks)) ∧
    (∃ s, 400 ≤ s ∧ s < 500 ∧
      deleteTask g? uid gid tid tasks = (s, tasks)) ∧
    (∃ s, 400 ≤ s ∧ s < 500 ∧
      completeTask g? u gid tid completed now tasks = (s, tasks)) :=
  ⟨deleteMessage_cross_group g? uid gid mid msgs m hm hmg,
   updateTask_cross_group g? uid gid tid valid upd now tasks t ht htg,
   deleteTask_cross_group g? uid gid tid tasks t ht htg,
   completeTask_cross_group g? u gid tid completed now tasks t ht htg⟩

/-- Concrete group for the cross-group-guard scenario. -/
def wxGroup : Group :=
  ⟨"g1", "G", "", "C0DE1234", "alice",
    [⟨"alice", "a@x.io", "Alice", "admin", "t0"⟩], "t0", "t0"⟩

/-- A message that belongs to a different group than the request path. -/
def wxMsg : Message := ⟨"m1", "g2", "alice", "a@x.io", "Alice", "hi", "t1", "t1"⟩

/-- A task that belongs to a different group than the request path. -/
def wxTask : Task :=
  ⟨"task1", "g2", "Read", "", none, none, false, none, none,
    ⟨"alice", "Alice"⟩, "t1", "t1"⟩

theorem cross_group_guard_witness :
    (∃ s, 400 ≤ s ∧ s < 500 ∧
      deleteMessage (some wxGroup) "alice" "g1" "m1" [wxMsg] =
        (s, [wxMsg], [])) ∧
    (∃ s, 400 ≤ s ∧ s < 500 ∧
      updateTask (some wxGroup) "alice" "g1" "task1" true
        ⟨none, none, none, none⟩ "t2" [wxTask] = (s, [wxTask])) ∧
    (∃ s, 400 ≤ s ∧ s < 500 ∧
      deleteTask (some wxGroup) "alice" "g1" "task1" [wxTask] =
        (s, [wxTask])) ∧
    (∃ s, 400 ≤ s ∧ s < 500 ∧
      completeTask (some wxGroup) ⟨"alice", "a@x.io", "Alice"⟩ "g1" "task1"
        true "t2" [wxTask] = (s, [wxTask])) :=
  cross_group_guard (some wxGroup) "alice" "g1" "m1" "task1"
    ⟨"alice", "a@x.io", "Alice"⟩ true ⟨none, none, none, none⟩ true "t2"
    [wxMsg] [wxTask] wxMsg wxTask (by decide) (by decide) (by decide)
    (by decide)

theorem find?_map_update (l : List Task) (tid : String) (t : Task)
    (f : Task → Task) (hpres : ∀ x, (f x).taskId = x.taskId)
    (hfind : l.find? (fun x => x.taskId == tid) = some t) :
    (l.map (fun x => if x.taskId == tid then f x else x)).find?
      (fun x => x.taskId == tid) = some (f t) := by
  induction l with
  | nil => simp at hfind
  | cons a l ih =>
    by_cases ha : (a.taskId == tid) = true
    · have hteq : t = a := by
        rw [@List.find?_cons_of_pos _ (fun x => x.taskId == tid) a l ha]
          at hfind
        exact (Option.some.inj hfind).symm
      subst hteq
      simp only [List.map_cons, if_pos ha]
      exact @List.find?_cons_of_pos _ (fun x => x.taskId == tid) (f t) _
        (by show ((f t).taskId == tid) = true; rw [hpres]; exact ha)
    · rw [@List.find?_cons_of_neg _ (fun x => x.taskId == tid) a l ha]
        at hfind
      simp only [List.map_cons, if_neg ha]
      rw [@List.find?_cons_of_neg _ (fun x => x.taskId == tid) a _ ha]
      exact ih hfind

theorem filter_map_update (l : List Task) (tid : String) (f : Task → Task)
    (hpres : ∀ x, (f x).taskId = x.taskId) :
    (l.map (fun x => if x.taskId == tid then f x else x)).filter
      (fun x => x.taskId != tid) = l.filter (fun x => x.taskId != tid) := by
  induction l with
  | nil => rfl
  | cons a l ih =>
    by_cases ha : (a.taskId == tid) = true
    · have h1 : ((f a).taskId != tid) = false := by
        rw [bne, hpres, ha]; rfl
      have h2 : (a.taskId != tid) = false := by rw [bne, ha]; rfl
      simp only [List.map_cons, if_pos ha, List.filter_cons, h1, h2,
        Bool.false_eq_true, if_false]
      exact ih
    · have ha' : (a.taskId == tid) = false := by simpa using ha
      have h2 : (a.taskId != tid) = true := by rw [bne, ha']; rfl
      simp only [List.map_cons, if_neg ha, List.filter_cons, h2, if_true]
      rw [ih]

/-- C8: a completion toggle on an existing task of the caller's group
succeeds with 200 and writes completed, completedAt, completedBy and
updatedAt in the same update: toggling to completed stores the acting
user's id and display name and the current timestamp, toggling to
incomplete clears both fields to null, all other task fields are carried
over unchanged, and every other task in the store is untouched. -/
theorem complete_toggle_fields (g : Group) (u : AuthUser)
    (gid tid now : String) (store : List Task) (t : Task) (completed : Bool)
    (hmem : isMember g u.userId = true)
    (hfind : store.find? (fun x => x.taskId == tid) = some t)
    (hg : t.groupId = gid) :
    (completeTask (some g) u gid tid completed now store).1 = 200 ∧
    (completeTask (some g) u gid tid completed now store).2.find?
        (fun x => x.taskId == tid) =
      some { t with
             completed := completed,
             completedAt := if completed then some now else none,
             completedBy :=
               if completed then some ⟨u.userId, u.displayName⟩ else none,
             updatedAt := now } ∧
    (completeTask (some g) u gid tid completed now store).2.filter
        (fun x => x.taskId != tid) =
      store.filter (fun x => x.taskId != tid) := by
  have hmc : membershipCheck (some g) u.userId = none := by
    simp [membershipCheck, hmem]
  have hgb : (t.groupId != gid) = false := by rw [bne, hg]; simp
  have heq : completeTask (some g) u gid tid completed now store =
      (200, store.map (fun x =>
        if x.taskId == tid then
          { x with
            completed := completed,
            completedAt := if completed then some now else none,
            completedBy :=
              if completed then some ⟨u.userId, u.displayName⟩ else none,
            updatedAt := now }
        else x)) := by
    simp only [completeTask, hmc, hfind, hgb, Bool.false_eq_true, if_false]
  rw [heq]
  refine ⟨rfl, ?_, ?_⟩
  · exact find?_map_update store tid t _ (fun x => rfl) hfind
  · exact filter_map_update store tid _ (fun x => rfl)

/-- Concrete group for the completion-toggle scenario. -/
def wcGroup : Group :=
  ⟨"g1", "G", "", "C0DE1234", "alice",
    [⟨"alice", "a@x.io", "Alice", "admin", "t0"⟩], "t0", "t0"⟩

/-- Concrete acting user. -/
def wcAlice : AuthUser := ⟨"alice", "a@x.io", "Alice"⟩

/-- A completed task that is toggled back to incomplete. -/
def wcTask : Task :=
  ⟨"task1", "g1", "Read", "", none, none, true, some "t1",
    some ⟨"alice", "Alice"⟩, ⟨"alice", "Alice"⟩, "t0", "t1"⟩

theorem complete_toggle_fields_witness :
    (completeTask (some wcGroup) wcAlice "g1" "task1" false "t2" [wcTask]).1 =
      200 ∧
    (completeTask (some wcGroup) wcAlice "g1" "task1" false "t2"
        [wcTask]).2.find? (fun x => x.taskId == "task1") =
      some { wcTask with
             completed := false,
             completedAt := if false then some "t2" else none,
             completedBy :=
               if false then some ⟨wcAlice.userId, wcAlice.displayName⟩
               else none,
             updatedAt := "t2" } ∧
    (completeTask (some wcGroup) wcAlice "g1" "task1" false "t2"
        [wcTask]).2.filter (fun x => x.taskId != "task1") =
      [wcTask].filter (fun x => x.taskId != "task1") :=
  complete_toggle_fields wcGroup wcAlice "g1" "task1" "t2" [wcTask] wcTask
    false (by decide) (by decide) (by decide)

/-- One note-save request: body content plus the acting user and timestamp. -/
structure SaveReq where
  content : String
  editor : UserRef
  now : String
deriving DecidableEq, Repr

/-- State of a group's note: the note document (none before the first save)
and its noteHistory sub-collection in archival order. -/
abbrev NoteState := Option NoteDoc × List HistEntry

/-- Core transition of PUT /api/notes/:groupId on a successful save: when a
note document already exists, its pre-overwrite content, editor and edit
timestamp are first appended to the history with an archive timestamp; then
the document is overwritten with the new content, editor and timestamp
(created when absent). -/
def saveNote (gid : String) (r : SaveReq) (st : NoteState) : NoteState :=
  let hist' :=
    match st.1 with
    | some prev =>
      st.2 ++ [⟨prev.content, prev.lastEditedBy, prev.lastEditedAt, r.now⟩]
    | none => st.2
  (some ⟨gid, r.content, some r.editor, some r.now, r.now⟩, hist')

/-- PUT /api/notes/:groupId: the content field always exists in the typed
body, so the validator passes; after the membership check the save applies
the archive-and-overwrite transition and notifies the group's room with the
editor and timestamp only. -/
def putNote (g? : Option Group) (u : AuthUser) (gid content now : String)
    (st : NoteState) : Nat × NoteState × List (String × Evt) :=
  match membershipCheck g? u.userId with
  | some s => (s, st, [])
  | none =>
    (200, saveNote gid ⟨content, ⟨u.userId, u.displayName⟩, now⟩ st,
      [(gid, Evt.noteUpdated gid ⟨u.userId, u.displayName⟩ now)])

/-- A sequence of successful saves, applied oldest first. -/
def runSaves (gid : String) (rs : List SaveReq) (st : NoteState) : NoteState :=
  rs.foldl (fun st r => saveNote gid r st) st

/-- Content, editor and save timestamp of an archived entry. -/
def entrySig (e : HistEntry) : String × Option UserRef × Option String :=
  (e.content, e.savedBy, e.savedAt)

/-- The signature a save's data has once archived by a later save. -/
def saveSig (r : SaveReq) : String × Option UserRef × Option String :=
  (r.content, some r.editor, some r.now)

/-- Signature of the live note document. -/
def noteSig (n : NoteDoc) : String × Option UserRef × Option String :=
  (n.content, n.lastEditedBy, n.lastEditedAt)

theorem runSaves_hist_some (gid : String) (rs : List SaveReq) :
    ∀ (n : NoteDoc) (h : List HistEntry),
      ((runSaves gid rs (some n, h)).2).map entrySig =
        h.map entrySig ++
          (match rs with
           | [] => []
           | _ :: _ => noteSig n :: (rs.dropLast).map saveSig) := by
  induction rs with
  | nil => intro n h; simp [runSaves]
  | cons r rest ih =>
    intro n h
    have hstep : runSaves gid (r :: rest) (some n, h) =
        runSaves gid rest
          (some ⟨gid, r.content, some r.editor, some r.now, r.now⟩,
            h ++ [⟨n.content, n.lastEditedBy, n.lastEditedAt, r.now⟩]) := rfl
    rw [hstep, ih]
    cases rest with
    | nil => simp [entrySig, noteSig]
    | cons r2 rest2 =>
      simp [entrySig, noteSig, saveSig, List.dropLast_cons₂]

/-- C2: over any nonempty sequence of successful note saves starting from a
group with no note document, the history afterwards has exactly N-1 entries;
entry k (in archival order) carries exactly the content, editor and
timestamp written by save k; equivalently, the entry signatures are the save
signatures of all but the last save, so the first save archives nothing and
every later save archives the state it replaces. -/
theorem note_history_after_saves (gid : String) (rs : List SaveReq)
    (hne : rs ≠ []) :
    ((runSaves gid rs ((none : Option NoteDoc),
        ([] : List HistEntry))).2).length = rs.length - 1 ∧
    ((runSaves gid rs (none, [])).2).map entrySig =
      (rs.dropLast).map saveSig ∧
    (∀ k, k < rs.length - 1 →
      (((runSaves gid rs (none, [])).2).map entrySig)[k]? =
        (rs.map saveSig)[k]?) := by
  obtain ⟨r, rest, rfl⟩ := List.exists_cons_of_ne_nil hne
  have hstep : runSaves gid (r :: rest) ((none : Option NoteDoc), []) =
      runSaves gid rest
        (some ⟨gid, r.content, some r.editor, some r.now, r.now⟩, []) := rfl
  have hmap : ((runSaves gid (r :: rest)
      ((none : Option NoteDoc), ([] : List HistEntry))).2).map entrySig =
      ((r :: rest).dropLast).map saveSig := by
    rw [hstep, runSaves_hist_some]
    cases rest with
    | nil => simp
    | cons r2 rest2 =>
      simp [noteSig, saveSig, List.dropLast_cons₂]
  refine ⟨?_, hmap, ?_⟩
  · have hlen := congrArg List.length hmap
    simpa [List.length_map, List.length_dropLast] using hlen
  · intro k hk
    rw [hmap, List.dropLast_eq_take, List.map_take, List.getElem?_take,
      if_pos hk]

/-- Concrete sequence of three saves by two users. -/
def wsSaves : List SaveReq :=
  [⟨"draft 1", ⟨"alice", "Alice"⟩, "t1"⟩,
   ⟨"draft 2", ⟨"bob", "Bob"⟩, "t2"⟩,
   ⟨"draft 3", ⟨"alice", "Alice"⟩, "t3"⟩]

theorem note_history_after_saves_witness :
    ((runSaves "g1" wsSaves ((none : Option NoteDoc),
        ([] : List HistEntry))).2).length = wsSaves.length - 1 ∧
    ((runSaves "g1" wsSaves (none, [])).2).map entrySig =
      (wsSaves.dropLast).map saveSig ∧
    (∀ k, k < wsSaves.length - 1 →
      (((runSaves "g1" wsSaves (none, [])).2).map entrySig)[k]? =
        (wsSaves.map saveSig)[k]?) :=
  note_history_after_saves "g1" wsSaves (by decide)

/-- Insertion into a newest-first list, preserving descending createdAt
order; building block of the store's orderBy createdAt desc. -/
def insertDesc (m : Message) : List Message → List Message
  | [] => [m]
  | x :: xs =>
    if strLe x.createdAt m.createdAt then m :: x :: xs
    else x :: insertDesc m xs

/-- Newest-first ordering of a message list by creation timestamp. -/
def sortDesc : List Message → List Message
  | [] => []
  | x :: xs => insertDesc x (sortDesc xs)

/-- The message query filter: messages of the group, created strictly before
the cursor when one is supplied. -/
def matchesQuery (gid : String) (before : Option String) (m : Message) :
    Bool :=
  m.groupId == gid &&
    (match before with
     | none => true
     | some b => strLt m.createdAt b)

/-- The query of GET /api/chat/:groupId/messages at an effective page size:
filter by group and cursor, order newest first, take the page, then reverse
server-side so the response is chronological oldest to newest. -/
def messagesPage (store : List Message) (gid : String)
    (before : Option String) (limit : Nat) : List Message :=
  ((sortDesc (store.filter (matchesQuery gid before))).take limit).reverse

/-- GET /api/chat/:groupId/messages.  limitQ models the optional limit query
parameter as a parsed integer: the validator rejects a supplied value
outside 1..100 with 400, and an absent limit falls back to 50; membership is
then required before the page is computed. -/
def getMessages (g? : Option Group) (uid gid : String) (limitQ : Option Nat)
    (before : Option String) (store : List Message) : Nat × List Message :=
  match limitQ with
  | some n =>
    if n < 1 || 100 < n then (400, [])
    else
      match membershipCheck g? uid with
      | some s => (s, [])
      | none => (200, messagesPage store gid before n)
  | none =>
    match membershipCheck g? uid with
    | some s => (s, [])
    | none => (200, messagesPage store gid before 50)

theorem insertDesc_perm (m : Message) (l : List Message) :
    (insertDesc m l).Perm (m :: l) := by
  induction l with
  | nil => exact List.Perm.refl _
  | cons x xs ih =>
    rw [insertDesc]
    by_cases h : strLe x.createdAt m.createdAt = true
    · rw [if_pos h]
    · rw [if_neg h]
      exact (ih.cons x).trans (List.Perm.swap m x xs)

theorem sortDesc_perm (l : List Message) : (sortDesc l).Perm l := by
  induction l with
  | nil => exact List.Perm.refl _
  | cons x xs ih =>
    exact (insertDesc_perm x (sortDesc xs)).trans (ih.cons x)

theorem insertDesc_pairwise (m : Message) (l : List Message)
    (hl : List.Pairwise (fun a b => strLe b.createdAt a.createdAt = true) l) :
    List.Pairwise (fun a b => strLe b.createdAt a.createdAt = true)
      (insertDesc m l) := by
  induction l with
  | nil => simp [insertDesc]
  | cons x xs ih =>
    rcases List.pairwise_cons.mp hl with ⟨hx, hxs⟩
    rw [insertDesc]
    by_cases h : strLe x.createdAt m.createdAt = true
    · rw [if_pos h]
      refine List.pairwise_cons.mpr ⟨?_, hl⟩
      intro y hy
      rcases List.mem_cons.mp hy with rfl | hy'
      · exact h
      · exact strLe_trans (hx y hy') h
    · rw [if_neg h]
      refine List.pairwise_cons.mpr ⟨?_, ih hxs⟩
      intro y hy
      have hy2 := (insertDesc_perm m xs).mem_iff.mp hy
      rcases List.mem_cons.mp hy2 with rfl | hy'
      · rcases strLe_total x.createdAt y.createdAt with htot | htot
        · exact absurd htot h
        · exact htot
      · exact hx y hy'

theorem sortDesc_pairwise (l : List Message) :
    List.Pairwise (fun a b => strLe b.createdAt a.createdAt = true)
      (sortDesc l) := by
  induction l with
  | nil => simp [sortDesc]
  | cons x xs ih => exact insertDesc_pairwise x (sortDesc xs) ih

/-- C7: the message-history fetch rejects a requested page size above 100
(or below 1) with 400; an absent limit behaves exactly like the default 50;
for a member with an in-range limit it returns 200 with the page; and every
page holds at most the page size of messages, all from the requested group
and strictly before the cursor when given, in chronological oldest-to-newest
order, and contains every matching message whenever they all fit. -/
theorem message_history_page (g : Group) (uid gid : String)
    (limitQ : Option Nat) (before : Option String) (store : List Message)
    (hmem : isMember g uid = true) :
    (getMessages (some g) uid gid none before store =
      getMessages (some g) uid gid (some 50) before store) ∧
    (∀ n, limitQ = some n → n < 1 ∨ 100 < n →
      getMessages (some g) uid gid limitQ before store = (400, [])) ∧
    (∀ n, limitQ = some n → 1 ≤ n → n ≤ 100 →
      getMessages (some g) uid gid limitQ before store =
        (200, messagesPage store gid before n)) ∧
    (∀ n,
      (messagesPage store gid before n).length ≤ n ∧
      List.Pairwise (fun a b => strLe a.createdAt b.createdAt = true)
        (messagesPage store gid before n) ∧
      (∀ m ∈ messagesPage store gid before n,
        m.groupId = gid ∧ ∀ b, before = some b → strLt m.createdAt b = true) ∧
      ((store.filter (matchesQuery gid before)).length ≤ n →
        (messagesPage store gid before n).Perm
          (store.filter (matchesQuery gid before)))) := by
  have hmc : membershipCheck (some g) uid = none := by
    simp [membershipCheck, hmem]
  refine ⟨?_, ?_, ?_, ?_⟩
  · simp [getMessages]
  · rintro n rfl hn
    rw [getMessages, if_pos]
    rcases hn with hn | hn <;> simp [hn]
  · rintro n rfl h1 hn
    rw [getMessages, if_neg, hmc]
    simp
    omega
  · intro n
    refine ⟨?_, ?_, ?_, ?_⟩
    · rw [messagesPage, List.length_reverse, List.length_take]
      exact Nat.min_le_left _ _
    · rw [messagesPage]
      rw [List.pairwise_reverse]
      exact List.Pairwise.sublist (List.take_sublist _ _) (sortDesc_pairwise _)
    · intro m hm
      rw [messagesPage, List.mem_reverse] at hm
      have hm2 := (sortDesc_perm _).mem_iff.mp (List.mem_of_mem_take hm)
      have hm3 := List.mem_filter.mp hm2
      have hm4 := (Bool.and_eq_true _ _).mp hm3.2
      refine ⟨by simpa using hm4.1, ?_⟩
      rintro b rfl
      simpa using hm4.2
    · intro hlen
      rw [messagesPage]
      have hslen : (sortDesc (store.filter (matchesQuery gid before))).length =
          (store.filter (matchesQuery gid before)).length :=
        (sortDesc_perm _).length_eq
      rw [List.take_of_length_le (by rw [hslen]; exact hlen)]
      exact (List.reverse_perm _).trans (sortDesc_perm _)

/-- Concrete store: three messages of the target group at distinct
timestamps, posted out of order, plus one message of another group. -/
def whStore : List Message :=
  [⟨"m2", "g1", "alice", "a@x.io", "Alice", "two", "t2", "t2"⟩,
   ⟨"m1", "g1", "bob", "b@x.io", "Bob", "one", "t1", "t1"⟩,
   ⟨"m4", "g2", "bob", "b@x.io", "Bob", "other", "t4", "t4"⟩,
   ⟨"m3", "g1", "alice", "a@x.io", "Alice", "three", "t3", "t3"⟩]

/-- Concrete group for the history scenario. -/
def whGroup : Group :=
  ⟨"g1", "G", "", "C0DE1234", "alice",
    [⟨"alice", "a@x.io", "Alice", "admin", "t0"⟩], "t0", "t0"⟩

theorem message_history_page_witness :
    (getMessages (some whGroup) "alice" "g1" none (some "t9") whStore =
      getMessages (some whGroup) "alice" "g1" (some 50) (some "t9") whStore) ∧
    (∀ n, (some 2 : Option Nat) = some n → n < 1 ∨ 100 < n →
      getMessages (some whGroup) "alice" "g1" (some 2) (some "t9") whStore =
        (400, [])) ∧
    (∀ n, (some 2 : Option Nat) = some n → 1 ≤ n → n ≤ 100 →
      getMessages (some whGroup) "alice" "g1" (some 2) (some "t9") whStore =
        (200, messagesPage whStore "g1" (some "t9") n)) ∧
    (∀ n,
      (messagesPage whStore "g1" (some "t9") n).length ≤ n ∧
      List.Pairwise (fun a b => strLe a.createdAt b.createdAt = true)
        (messagesPage whStore "g1" (some "t9") n) ∧
      (∀ m ∈ messagesPage whStore "g1" (some "t9") n,
        m.groupId = "g1" ∧
          ∀ b, (some "t9" : Option String) = some b →
            strLt m.createdAt b = true) ∧
      ((whStore.filter (matchesQuery "g1" (some "t9"))).length ≤ n →
        (messagesPage whStore "g1" (some "t9") n).Perm
          (whStore.filter (matchesQuery "g1" (some "t9"))))) :=
  message_history_page whGroup "alice" "g1" (some 2) (some "t9") whStore
    (by decide)

/-- Construction of the persisted chat message: server-assigned document id,
denormalized sender identity from the verified token, trimmed text, and
creation/update timestamps.  The REST route and the socket handler build the
identical object. -/
def mkMessage (mid gid : String) (u : AuthUser) (text now : String) :
    Message :=
  ⟨mid, gid, u.userId, u.email, u.displayName, jsTrim text, now, now⟩

/-- POST /api/chat/:groupId/messages: express-validator trims the text and
requires it non-empty and at most 2000 characters (400 otherwise);
membership is then required; the message is persisted with a server-assigned
id and broadcast as new_message to the group's room. -/
def postMessage (g? : Option Group) (u : AuthUser) (gid text mid now : String)
    (store : List Message) : Nat × List Message × List (String × Evt) :=
  if jsTrim text == "" || 2000 < (jsTrim text).length then (400, store, [])
  else
    match membershipCheck g? u.userId with
    | some s => (s, store, [])
    | none =>
      let m := mkMessage mid gid u text now
      (201, store ++ [m], [(gid, Evt.newMessage m)])

/-- Effects of the send_message socket handler: events emitted back to the
calling socket, the messages collection afterwards, events broadcast to
rooms, and whether the server closed the connection (it never does). -/
structure SendOut where
  selfEmits : List Evt
  store : List Message
  roomEmits : List (String × Evt)
  disconnected : Bool
deriving DecidableEq, Repr

/-- The send_message socket event: an unauthenticated socket gets an error
event; a missing group id or empty trimmed text gets an error event; text
over 2000 characters gets an error event; otherwise the message is persisted
with a server-assigned id and broadcast to the room — with no membership
check against the target group. -/
def sendMessageEvt (user? : Option AuthUser) (gid text mid now : String)
    (store : List Message) : SendOut :=
  match user? with
  | none => ⟨[Evt.error "Authentication required."], store, [], false⟩
  | some u =>
    if gid == "" || jsTrim text == "" then
      ⟨[Evt.error "groupId and text are required."], store, [], false⟩
    else if 2000 < (jsTrim text).length then
      ⟨[Evt.error "Message must be 2000 characters or less."], store, [],
        false⟩
    else
      ⟨[], store ++ [mkMessage mid gid u text now],
        [(gid, Evt.newMessage (mkMessage mid gid u text now))], false⟩

/-- Association-list model of a JavaScript Map: set overwrites the entry in
place when the key exists and appends otherwise. -/
def mapSet {α : Type} (m : List (String × α)) (k : String) (v : α) :
    List (String × α) :=
  if m.any (fun p => p.1 == k) then
    m.map (fun p => if p.1 == k then (k, v) else p)
  else m ++ [(k, v)]

/-- Map lookup. -/
def mapGet {α : Type} (m : List (String × α)) (k : String) : Option α :=
  (m.find? (fun p => p.1 == k)).map (fun p => p.2)

/-- Map deletion. -/
def mapDel {α : Type} (m : List (String × α)) (k : String) :
    List (String × α) :=
  m.filter (fun p => p.1 != k)

/-- The module-level onlineUsers map: group id to a map from user id to the
user's presence info. -/
abbrev Roster := List (String × List (String × OnlineUser))

/-- addOnlineUser: create the group's inner map when missing, then key the
entry by user id so the same user with multiple tabs holds one entry. -/
def addOnlineUser (r : Roster) (gid : String) (u : OnlineUser) : Roster :=
  mapSet r gid (mapSet ((mapGet r gid).getD []) u.userId u)

/-- removeOnlineUser: delete the user's entry by user id alone, pruning the
group key when its inner map becomes empty. -/
def removeOnlineUser (r : Roster) (gid uid : String) : Roster :=
  match mapGet r gid with
  | none => r
  | some inner =>
    let inner' := mapDel inner uid
    if inner'.isEmpty then mapDel r gid else mapSet r gid inner'

/-- getOnlineUsers: the inner map's values, or empty when the group has no
entry. -/
def getOnlineUsers (r : Roster) (gid : String) : List OnlineUser :=
  ((mapGet r gid).getD []).map (fun p => p.2)

/-- Effects of the join_group socket handler: events to the calling socket,
events to rooms, the roster and the socket's joined-rooms set afterwards,
whether the socket entered the room, and whether the server closed the
connection. -/
structure JoinEvtOut where
  selfEmits : List Evt
  roomEmits : List (String × Evt)
  roster : Roster
  joined : List String
  inRoom : Bool
  disconnected : Bool
deriving DecidableEq, Repr

/-- The join_group socket event: an unauthenticated socket, a missing group
id, a missing group document or a non-member each get an error event and no
state change; otherwise the socket joins the room, the roster entry is added
keyed by user id, the room is told user_joined and the caller receives the
online_users snapshot. -/
def joinGroupEvt (user? : Option AuthUser) (gid : String) (g? : Option Group)
    (roster : Roster) (joined : List String) (sid : String) : JoinEvtOut :=
  match user? with
  | none =>
    ⟨[Evt.error "Authentication required."], [], roster, joined, false, false⟩
  | some u =>
    if gid == "" then
      ⟨[Evt.error "groupId is required."], [], roster, joined, false, false⟩
    else
      match g? with
      | none =>
        ⟨[Evt.error "Group not found."], [], roster, joined, false, false⟩
      | some g =>
        if !isMember g u.userId then
          ⟨[Evt.error "You are not a member of this group."], [], roster,
            joined, false, false⟩
        else
          let roster' :=
            addOnlineUser roster gid ⟨u.userId, u.displayName, sid⟩
          ⟨[Evt.onlineUsers gid (getOnlineUsers roster' gid)],
            [(gid, Evt.userJoined u.userId u.displayName)],
            roster', arrayUnion joined gid, true, false⟩

/-- Effects of the typing / stop_typing relays. -/
structure RelayOut where
  selfEmits : List Evt
  roomEmits : List (String × Evt)
  disconnected : Bool
deriving DecidableEq, Repr

/-- The typing socket event: silently ignored (no emit of any kind) when the
socket is unauthenticated or the group id is missing; otherwise relayed to
everyone else in the room. -/
def typingEvt (user? : Option AuthUser) (gid : String) : RelayOut :=
  match user? with
  | none => ⟨[], [], false⟩
  | some u =>
    if gid == "" then ⟨[], [], false⟩
    else ⟨[], [(gid, Evt.typing u.userId u.displayName gid)], false⟩

/-- The stop_typing socket event, with the same silent guard as typing. -/
def stopTypingEvt (user? : Option AuthUser) (gid : String) : RelayOut :=
  match user? with
  | none => ⟨[], [], false⟩
  | some u =>
    if gid == "" then ⟨[], [], false⟩
    else ⟨[], [(gid, Evt.stopTyping u.userId gid)], false⟩

/-- Effects of the leave_group socket handler. -/
structure LeaveEvtOut where
  roomEmits : List (String × Evt)
  roster : Roster
  joined : List String
deriving DecidableEq, Repr

/-- The leave_group socket event: nothing when the group id is missing;
otherwise the socket leaves the room, the roster entry for
socket.user?.userId is removed (no removal can match when the socket is
unauthenticated, since entries are only ever keyed by real user ids), and
user_left is broadcast to the room. -/
def leaveGroupEvt (user? : Option AuthUser) (gid : String) (roster : Roster)
    (joined : List String) : LeaveEvtOut :=
  if gid == "" then ⟨[], roster, joined⟩
  else
    let roster' :=
      match user? with
      | some u => removeOnlineUser roster gid u.userId
      | none => roster
    ⟨[(gid, Evt.userLeft (user?.map AuthUser.userId)
        (user?.map AuthUser.displayName))],
      roster', joined.filter (fun x => x != gid)⟩

/-- The disconnect handler: for every room this socket had joined, remove
the user's roster entry by user id and broadcast user_left to the room. -/
def disconnectEvt (user? : Option AuthUser) (joined : List String)
    (roster : Roster) : Roster × List (String × Evt) :=
  joined.foldl
    (fun acc gid =>
      (match user? with
       | some u => removeOnlineUser acc.1 gid u.userId
       | none => acc.1,
       acc.2 ++ [(gid, Evt.userLeft (user?.map AuthUser.userId)
         (user?.map AuthUser.displayName))]))
    (roster, [])

/-- Group whose only member is alice, for the socket-post scenario. -/
def c1Group : Group :=
  ⟨"g1", "G", "", "C0DE1234", "alice",
    [⟨"alice", "a@x.io", "Alice", "admin", "t0"⟩], "t0", "t0"⟩

/-- An authenticated user who is not a member of that group. -/
def c1Bob : AuthUser := ⟨"bob", "b@x.io", "Bob"⟩

/-- C1 counterexample: an authenticated non-member posting via the
send_message room event has the message persisted and broadcast anyway,
whereas the REST post path rejects the same caller with 403 and persists
nothing — the real-time path does not perform the REST path's membership
check. -/
theorem send_message_skips_membership_counterexample :
    isMember c1Group c1Bob.userId = false ∧
    sendMessageEvt (some c1Bob) "g1" "hi" "m1" "t1" [] =
      ⟨[], [mkMessage "m1" "g1" c1Bob "hi" "t1"],
        [("g1", Evt.newMessage (mkMessage "m1" "g1" c1Bob "hi" "t1"))],
        false⟩ ∧
    postMessage (some c1Group) c1Bob "g1" "hi" "m1" "t1" [] =
      (403, [], []) := by
  decide

/-- C1 (corrected): for an authenticated socket and nonempty group id, the
send_message room event applies the same text validation as the REST post
route (trimmed, 1..2000 characters, rejected otherwise), assigns the
server-side message id, stamps the sender identity and timestamps, persists
exactly one message and broadcasts it to the group's room — and the REST
route produces the identical store and broadcast when the caller is a
member; but the socket path itself performs no membership check before
persisting. -/
theorem send_message_refinement (u : AuthUser) (g : Group)
    (gid text mid now : String) (store : List Message) (hgid : gid ≠ "") :
    ((jsTrim text = "" ∨ 2000 < (jsTrim text).length) →
      ∃ msg, sendMessageEvt (some u) gid text mid now store =
          ⟨[Evt.error msg], store, [], false⟩ ∧
        postMessage (some g) u gid text mid now store = (400, store, [])) ∧
    (jsTrim text ≠ "" → (jsTrim text).length ≤ 2000 →
      sendMessageEvt (some u) gid text mid now store =
        ⟨[], store ++ [mkMessage mid gid u text now],
          [(gid, Evt.newMessage (mkMessage mid gid u text now))], false⟩) ∧
    (jsTrim text ≠ "" → (jsTrim text).length ≤ 2000 →
      isMember g u.userId = true →
      postMessage (some g) u gid text mid now store =
        (201, store ++ [mkMessage mid gid u text now],
          [(gid, Evt.newMessage (mkMessage mid gid u text now))])) := by
  have hgidb : (gid == "") = false := by simpa using hgid
  refine ⟨?_, ?_, ?_⟩
  · intro h
    rcases h with he | hl
    · have heb : (jsTrim text == "") = true := by simpa using he
      refine ⟨"groupId and text are required.", ?_, ?_⟩
      · rw [sendMessageEvt]
        simp [hgidb, heb]
      · rw [postMessage]
        simp [heb]
    · have hne : (jsTrim text == "") = false := by
        have h0 : jsTrim text ≠ "" := by
          intro he
          rw [he] at hl
          exact absurd hl (by decide)
        simpa using h0
      refine ⟨"Message must be 2000 characters or less.", ?_, ?_⟩
      · rw [sendMessageEvt]
        simp [hgidb, hne, if_pos hl]
      · rw [postMessage]
        simp [hne, hl]
  · intro h0 hlen
    have hne : (jsTrim text == "") = false := by simpa using h0
    have hnl : ¬(2000 < (jsTrim text).length) := Nat.not_lt.mpr hlen
    rw [sendMessageEvt]
    simp [hgidb, hne, if_neg hnl]
  · intro h0 hlen hmem
    have hne : (jsTrim text == "") = false := by simpa using h0
    have hnl : ¬(2000 < (jsTrim text).length) := Nat.not_lt.mpr hlen
    have hmc : membershipCheck (some g) u.userId = none := by
      simp [membershipCheck, hmem]
    rw [postMessage]
    simp [hne, hnl, hmc, mkMessage]

/-- Member and group for the post-equivalence scenario. -/
def wmAlice : AuthUser := ⟨"alice", "a@x.io", "Alice"⟩

/-- Group whose only member posts the message. -/
def wmGroup : Group :=
  ⟨"g1", "G", "", "C0DE1234", "alice",
    [⟨"alice", "a@x.io", "Alice", "admin", "t0"⟩], "t0", "t0"⟩

theorem send_message_refinement_witness :
    sendMessageEvt (some wmAlice) "g1" " hi " "m1" "t1" [] =
      ⟨[], [mkMessage "m1" "g1" wmAlice " hi " "t1"],
        [("g1", Evt.newMessage (mkMessage "m1" "g1" wmAlice " hi " "t1"))],
        false⟩ ∧
    postMessage (some wmGroup) wmAlice "g1" " hi " "m1" "t1" [] =
      (201, [mkMessage "m1" "g1" wmAlice " hi " "t1"],
        [("g1", Evt.newMessage (mkMessage "m1" "g1" wmAlice " hi " "t1"))]) :=
  ⟨(send_message_refinement wmAlice wmGroup "g1" " hi " "m1" "t1" []
      (by decide)).2.1 (by decide) (by decide),
   (send_message_refinement wmAlice wmGroup "g1" " hi " "m1" "t1" []
      (by decide)).2.2 (by decide) (by decide) (by decide)⟩

/-- C6 counterexample: an unauthenticated typing or stop_typing event is
silently ignored — the handler emits nothing at all, in particular no error
event, contradicting the claim that every room-privileged event from an
unauthenticated connection is answered with an explicit error event. -/
theorem unauth_typing_silent_counterexample :
    typingEvt none "g1" = ⟨[], [], false⟩ ∧
    stopTypingEvt none "g1" = ⟨[], [], false⟩ := by decide

/-- C6 (corrected): on an unauthenticated connection, join_group and
send_message are rejected with an explicit error event, while typing and
stop_typing are silently dropped without any emitted event; in every case no
privileged action is performed (no room join, no roster change, no
persistence, no relay) and the connection is never terminated. -/
theorem unauth_events_no_action (gid text mid now sid : String)
    (g? : Option Group) (roster : Roster) (joined : List String)
    (store : List Message) :
    joinGroupEvt none gid g? roster joined sid =
      ⟨[Evt.error "Authentication required."], [], roster, joined, false,
        false⟩ ∧
    sendMessageEvt none gid text mid now store =
      ⟨[Evt.error "Authentication required."], store, [], false⟩ ∧
    typingEvt none gid = ⟨[], [], false⟩ ∧
    stopTypingEvt none gid = ⟨[], [], false⟩ :=
  ⟨rfl, rfl, rfl, rfl⟩

theorem mapGet_mapDel {α : Type} (m : List (String × α)) (k : String) :
    mapGet (mapDel m k) k = none := by
  rw [mapGet]
  have h : (mapDel m k).find? (fun p => p.1 == k) = none := by
    rw [List.find?_eq_none]
    intro x hx
    have h2 := (List.mem_filter.mp hx).2
    simp only [bne_iff_ne, ne_eq] at h2
    simpa using h2
  rw [h]
  rfl

theorem mapGet_mapSet {α : Type} (m : List (String × α)) (k : String)
    (v : α) : mapGet (mapSet m k v) k = some v := by
  induction m with
  | nil =>
    rw [mapSet]
    simp only [List.any_nil, Bool.false_eq_true, if_false, List.nil_append]
    rw [mapGet, @List.find?_cons_of_pos _ (fun p => p.1 == k) (k, v) _
      (by simp)]
    rfl
  | cons p ps ih =>
    by_cases hp : (p.1 == k) = true
    · have hany : ((p :: ps).any fun q => q.1 == k) = true :=
        List.any_eq_true.mpr ⟨p, List.mem_cons_self p ps, hp⟩
      rw [mapSet, if_pos hany, List.map_cons, if_pos hp, mapGet,
        @List.find?_cons_of_pos _ (fun q => q.1 == k) (k, v) _ (by simp)]
      rfl
    · by_cases hany : (ps.any fun q => q.1 == k) = true
      · have hany2 : ((p :: ps).any fun q => q.1 == k) = true := by
          rw [List.any_cons, hany]
          simp
        rw [mapSet, if_pos hany2, List.map_cons, if_neg hp, mapGet,
          @List.find?_cons_of_neg _ (fun q => q.1 == k) p _ hp]
        have h3 := ih
        rw [mapSet, if_pos hany, mapGet] at h3
        exact h3
      · have hany2 : ((p :: ps).any fun q => q.1 == k) = false := by
          rw [List.any_cons]
          simp only [Bool.or_eq_false_iff]
          exact ⟨Bool.eq_false_iff.mpr hp, Bool.eq_false_iff.mpr hany⟩
        rw [mapSet, if_neg (by rw [hany2]; exact Bool.false_ne_true),
          List.cons_append, mapGet,
          @List.find?_cons_of_neg _ (fun q => q.1 == k) p _ hp]
        have h3 := ih
        rw [mapSet, if_neg hany, mapGet] at h3
        exact h3

theorem mapGet_some {α : Type} {m : List (String × α)} {k : String} {v : α}
    (h : mapGet m k = some v) : ∃ p ∈ m, p.1 = k ∧ p.2 = v := by
  rw [mapGet] at h
  cases hf : m.find? (fun p => p.1 == k) with
  | none => rw [hf] at h; simp at h
  | some p =>
    rw [hf] at h
    refine ⟨p, List.mem_of_find?_eq_some hf, ?_, ?_⟩
    · simpa using List.find?_some hf
    · simpa using h

theorem mapSet_mem {α : Type} (m : List (String × α)) (k : String) (v : α)
    (q : String × α) (hq : q ∈ mapSet m k v) : q ∈ m ∨ q = (k, v) := by
  rw [mapSet] at hq
  by_cases h : (m.any fun p => p.1 == k) = true
  · rw [if_pos h] at hq
    rcases List.mem_map.mp hq with ⟨p, hp, hpq⟩
    by_cases hk : (p.1 == k) = true
    · right
      rw [if_pos hk] at hpq
      exact hpq.symm
    · left
      rw [if_neg hk] at hpq
      rw [← hpq]
      exact hp
  · rw [if_neg h] at hq
    rcases List.mem_append.mp hq with h2 | h2
    · left; exact h2
    · right; simpa using h2

/-- Well-formedness of the roster: every inner entry is keyed by the user id
of the stored presence info, which is how addOnlineUser always writes it. -/
def rosterWF (r : Roster) : Prop :=
  ∀ p ∈ r, ∀ q ∈ p.2, (q.2).userId = q.1

theorem rosterWF_add (r : Roster) (gid : String) (u : OnlineUser)
    (hwf : rosterWF r) : rosterWF (addOnlineUser r gid u) := by
  intro p hp
  rw [addOnlineUser] at hp
  rcases mapSet_mem _ _ _ _ hp with hp' | rfl
  · exact hwf p hp'
  · intro q hq
    rcases mapSet_mem _ _ _ _ hq with hq' | rfl
    · cases hget : mapGet r gid with
      | none => rw [hget] at hq'; simp at hq'
      | some inner =>
        rw [hget] at hq'
        simp only [Option.getD_some] at hq'
        obtain ⟨pr, hpr, _, hpr2⟩ := mapGet_some hget
        exact hwf pr hpr q (by rw [hpr2]; exact hq')
    · rfl

theorem getOnlineUsers_remove (r : Roster) (gid uid : String)
    (hwf : rosterWF r) :
    ∀ ou ∈ getOnlineUsers (removeOnlineUser r gid uid) gid,
      ou.userId ≠ uid := by
  intro ou hou
  cases hget : mapGet r gid with
  | none =>
    simp only [removeOnlineUser, hget, getOnlineUsers] at hou
    simp at hou
  | some inner =>
    simp only [removeOnlineUser, hget] at hou
    by_cases hemp : (mapDel inner uid).isEmpty = true
    · rw [if_pos hemp] at hou
      rw [getOnlineUsers, mapGet_mapDel] at hou
      simp at hou
    · rw [if_neg hemp] at hou
      rw [getOnlineUsers, mapGet_mapSet] at hou
      simp only [Option.getD_some] at hou
      rcases List.mem_map.mp hou with ⟨q, hq, rfl⟩
      have hq2 := List.mem_filter.mp hq
      obtain ⟨pr, hpr, _, hpr2⟩ := mapGet_some hget
      have hkey := hwf pr hpr q (by rw [hpr2]; exact hq2.1)
      rw [hkey]
      simpa using hq2.2

/-- C9: when the same user id has been added to a group's roster by joins
from two distinct connections (two socket ids), a single leave_group or
disconnect from either connection removes the roster entry for that user
entirely — the group's online-users list no longer holds the user id — and
broadcasts one user_left to the room: removal is keyed by user id only,
never by connection. -/
theorem roster_removal_by_userId (r : Roster) (gid : String) (u : AuthUser)
    (dn1 s1 s2 : String) (joined : List String)
    (hwf : rosterWF r) (hgid : gid ≠ "") :
    (leaveGroupEvt (some u) gid
        (addOnlineUser (addOnlineUser r gid ⟨u.userId, dn1, s1⟩) gid
          ⟨u.userId, u.displayName, s2⟩) joined).roomEmits =
      [(gid, Evt.userLeft (some u.userId) (some u.displayName))] ∧
    (∀ ou ∈ getOnlineUsers
        (leaveGroupEvt (some u) gid
          (addOnlineUser (addOnlineUser r gid ⟨u.userId, dn1, s1⟩) gid
            ⟨u.userId, u.displayName, s2⟩) joined).roster gid,
      ou.userId ≠ u.userId) ∧
    (disconnectEvt (some u) [gid]
        (addOnlineUser (addOnlineUser r gid ⟨u.userId, dn1, s1⟩) gid
          ⟨u.userId, u.displayName, s2⟩)).2 =
      [(gid, Evt.userLeft (some u.userId) (some u.displayName))] ∧
    (∀ ou ∈ getOnlineUsers
        (disconnectEvt (some u) [gid]
          (addOnlineUser (addOnlineUser r gid ⟨u.userId, dn1, s1⟩) gid
            ⟨u.userId, u.displayName, s2⟩)).1 gid,
      ou.userId ≠ u.userId) := by
  have hgidb : (gid == "") = false := by simpa using hgid
  have hwf2 : rosterWF (addOnlineUser (addOnlineUser r gid
      ⟨u.userId, dn1, s1⟩) gid ⟨u.userId, u.displayName, s2⟩) :=
    rosterWF_add _ gid _ (rosterWF_add _ gid _ hwf)
  refine ⟨?_, ?_, ?_, ?_⟩
  · rw [leaveGroupEvt, if_neg (by simp [hgidb])]
    rfl
  · intro ou hou
    rw [leaveGroupEvt, if_neg (by simp [hgidb])] at hou
    exact getOnlineUsers_remove _ gid u.userId hwf2 ou hou
  · rfl
  · intro ou hou
    exact getOnlineUsers_remove _ gid u.userId hwf2 ou hou

/-- Concrete scenario: alice joins group g1 from two tabs, then one leaves. -/
def w9Alice : AuthUser := ⟨"alice", "a@x.io", "Alice"⟩

theorem roster_removal_by_userId_witness :
    (leaveGroupEvt (some w9Alice) "g1"
        (addOnlineUser (addOnlineUser [] "g1" ⟨"alice", "Alice", "s1"⟩) "g1"
          ⟨"alice", "Alice", "s2"⟩) ["g1"]).roomEmits =
      [("g1", Evt.userLeft (some "alice") (some "Alice"))] ∧
    (∀ ou ∈ getOnlineUsers
        (leaveGroupEvt (some w9Alice) "g1"
          (addOnlineUser (addOnlineUser [] "g1" ⟨"alice", "Alice", "s1"⟩)
            "g1" ⟨"alice", "Alice", "s2"⟩) ["g1"]).roster "g1",
      ou.userId ≠ "alice") ∧
    (disconnectEvt (some w9Alice) ["g1"]
        (addOnlineUser (addOnlineUser [] "g1" ⟨"alice", "Alice", "s1"⟩) "g1"
          ⟨"alice", "Alice", "s2"⟩)).2 =
      [("g1", Evt.userLeft (some "alice") (some "Alice"))] ∧
    (∀ ou ∈ getOnlineUsers
        (disconnectEvt (some w9Alice) ["g1"]
          (addOnlineUser (addOnlineUser [] "g1" ⟨"alice", "Alice", "s1"⟩)
            "g1" ⟨"alice", "Alice", "s2"⟩)).1 "g1",
      ou.userId ≠ "alice") :=
  roster_removal_by_userId [] "g1" w9Alice "Alice" "s1" "s2" ["g1"]
    (by simp [rosterWF]) (by decide)

end OnlineGS
